import Mathlib

/-!
Verification development for the Covid-Tracker data-processing pipeline:
a shallow embedding of the two pure functions in `src/App.js`,
`processHistoricalData` (series alignment) and `forecastData`
(linear-regression forecast), together with theorems about them.
-/

namespace CovidTracker

/-- A calendar date, as the value denoted by a date key string
(year, month, day). JS `Date` comparison of such keys is comparison of
their time values, i.e. lexicographic comparison of (year, month, day). -/
structure Date where
  year : ℕ
  month : ℕ
  day : ℕ
deriving DecidableEq, Repr

/-- Calendar-date order: lexicographic on (year, month, day).
This is the order induced by the comparator
`(a, b) => new Date(a) - new Date(b)` in `processHistoricalData`. -/
def dateLe (a b : Date) : Prop :=
  a.year < b.year ∨ (a.year = b.year ∧
    (a.month < b.month ∨ (a.month = b.month ∧ a.day ≤ b.day)))

/-- Strict calendar-date order. -/
def dateLt (a b : Date) : Prop :=
  a.year < b.year ∨ (a.year = b.year ∧
    (a.month < b.month ∨ (a.month = b.month ∧ a.day < b.day)))

instance : DecidableRel dateLe := by
  unfold dateLe; infer_instance

instance : DecidableRel dateLt := by
  unfold dateLt; infer_instance

instance : IsTotal Date dateLe := by
  constructor; intro a b; unfold dateLe; omega

instance : IsTrans Date dateLe := by
  constructor; intro a b c; unfold dateLe; omega

instance : IsTrans Date dateLt := by
  constructor; intro a b c; unfold dateLt; omega

theorem dateLt_of_dateLe_of_ne {a b : Date} (h : dateLe a b) (hne : a ≠ b) :
    dateLt a b := by
  obtain ⟨ay, am, ad⟩ := a
  obtain ⟨by1, bm, bd⟩ := b
  simp only [dateLe] at h
  simp only [dateLt]
  simp only [ne_eq, Date.mk.injEq] at hne
  omega

/-- A metric series: the date-keyed mapping delivered by the API
(`casesData`, `recoveredData`, `vaccineData`), as an association list
of key/value pairs. -/
abbrev MetricSeries : Type := List (Date × ℕ)

/-- JS property access `obj[date]` on a date-keyed object: the value at
the first matching key. -/
def seriesGet (l : MetricSeries) (d : Date) : Option ℕ :=
  match l with
  | [] => none
  | (k, v) :: rest => if d = k then some v else seriesGet rest d

/-- `Object.keys(x || {})`: the key list of a possibly-absent series. -/
def optKeys : Option MetricSeries → List Date
  | none => []
  | some l => l.map Prod.fst

/-- The field value `x ? x[date] || 0 : 0` used for each metric in
`processHistoricalData`. -/
def lookupOr0 (s : Option MetricSeries) (d : Date) : ℕ :=
  match s with
  | none => 0
  | some l => (seriesGet l d).getD 0

/-- Insertion pass of `new Set(array)`: walk the array keeping each
element not seen before, in order. -/
def jsSetAux (seen : List Date) : List Date → List Date
  | [] => []
  | d :: rest =>
    if d ∈ seen then jsSetAux seen rest else d :: jsSetAux (d :: seen) rest

/-- Order-preserving deduplication keeping the first occurrence:
the observable content of `new Set(sortedArray)` iterated in insertion
order (as `Array.from` does). -/
def jsSetList (l : List Date) : List Date := jsSetAux [] l

/-- One row of the aligned sequence produced by `processHistoricalData`. -/
structure AlignedRecord where
  date : Date
  cases : ℕ
  recovered : ℕ
  vaccines : ℕ
deriving DecidableEq, Repr

/-- The spread array
`[...Object.keys(casesData || {}), ...Object.keys(recoveredData || {}), ...Object.keys(vaccineData || {})]`
built by `processHistoricalData` before sorting. -/
def allKeys (casesData recoveredData vaccineData : Option MetricSeries) :
    List Date :=
  optKeys casesData ++ optKeys recoveredData ++ optKeys vaccineData

/-- Embedding of `processHistoricalData` (`src/App.js` lines 60-74):
concatenate the key lists of the present inputs, sort them by the
calendar-date comparator, collapse them to a `Set` (first-occurrence
dedup), and map each date to a record taking each field from the
corresponding series or 0. -/
def processHistoricalData (casesData recoveredData vaccineData :
    Option MetricSeries) : List AlignedRecord :=
  let dates := jsSetList (List.insertionSort dateLe
    (allKeys casesData recoveredData vaccineData))
  dates.map (fun date =>
    { date := date
      cases := lookupOr0 casesData date
      recovered := lookupOr0 recoveredData date
      vaccines := lookupOr0 vaccineData date })

/-- Number of days in a month of a given year, as the Gregorian calendar
implemented by JS `Date` normalization. -/
def daysInMonth (y m : ℕ) : ℕ :=
  if m = 2 then (if y % 4 = 0 ∧ (y % 100 ≠ 0 ∨ y % 400 = 0) then 29 else 28)
  else if m = 4 ∨ m = 6 ∨ m = 9 ∨ m = 11 then 30
  else 31

/-- The calendar day after a date, with month and year rollover. -/
def Date.next (d : Date) : Date :=
  if d.day + 1 ≤ daysInMonth d.year d.month then ⟨d.year, d.month, d.day + 1⟩
  else if d.month + 1 ≤ 12 then ⟨d.year, d.month + 1, 1⟩
  else ⟨d.year + 1, 1, 1⟩

/-- Calendar-date addition of `k` days. -/
def addDays (d : Date) : ℕ → Date
  | 0 => d
  | k + 1 => (addDays d k).next

/-- JS `date.setDate(n)` for `n ≥ 1`: the date is renormalized to the
first day of `date`'s month advanced by `n - 1` days, carrying any
overflow into later months and years. `forecastData` calls this as
`nextDate.setDate(lastDate.getDate() + i)`. -/
def jsSetDate (d : Date) (n : ℕ) : Date :=
  addDays ⟨d.year, d.month, 1⟩ (n - 1)

/-- One point of the history handed to `forecastData`: the shape
`{ date, cases }` extracted from the aligned sequence. The case count is
a JS number, embedded as a rational. -/
structure HistRecord where
  date : Date
  cases : ℚ
deriving DecidableEq, Repr

/-- One projected point produced by `forecastData`. -/
structure ForecastRecord where
  date : Date
  cases : ℤ
  isForecast : Bool
deriving DecidableEq, Repr

/-- JS `Math.round`: round half toward positive infinity,
`Math.round(x) = ⌊x + 1/2⌋`. -/
def jsRound (x : ℚ) : ℤ := ⌊x + 1 / 2⌋

/-- The accumulated `sumX` of `forecastData`: the sum of the indices
`0, …, n-1` of the history. -/
def sumIdx (n : ℕ) : ℚ := ∑ i ∈ Finset.range n, (i : ℚ)

/-- The accumulated `sumX2` of `forecastData`: the sum of the squared
indices of the history. -/
def sumIdxSq (n : ℕ) : ℚ := ∑ i ∈ Finset.range n, (i : ℚ) * (i : ℚ)

/-- The accumulated `sumY` of `forecastData`: the sum of the case
counts of the history. -/
def sumY (hist : List HistRecord) : ℚ := (hist.map (fun d => d.cases)).sum

/-- The accumulated `sumXY` of `forecastData`: the sum of
index-times-cases over the history. -/
def sumXY (hist : List HistRecord) : ℚ :=
  (hist.enum.map (fun p => (p.1 : ℚ) * p.2.cases)).sum

/-- The denominator `n * sumX2 - sumX * sumX` of the slope `m` in
`forecastData` (`src/App.js` line 205); the division there is performed
unconditionally, with no guard on this value. -/
def slopeDenom (n : ℕ) : ℚ := n * sumIdxSq n - sumIdx n * sumIdx n

/-- The date `historicalData[n - 1].date` of the last history point,
read by `forecastData` before extrapolating. The default is never used:
`forecastData` only reads it behind the `length < 10` test. -/
def lastHistDate (hist : List HistRecord) : Date :=
  (hist.getLastD ⟨⟨0, 0, 0⟩, 0⟩).date

/-- Embedding of `forecastData` (`src/App.js` lines 185-222): an absent
or shorter-than-10 history yields `[]`; otherwise fit `y = m*x + b` by
least squares over (index, cases) pairs and emit one record per step
`i = 1..daysToForecast`, dated `i` days past the last history date via
`setDate` renormalization, with cases `max 0 (round (m*(n+i-1) + b))`. -/
def forecastData (historicalData : Option (List HistRecord))
    (daysToForecast : ℕ) : List ForecastRecord :=
  match historicalData with
  | none => []
  | some hist =>
    if hist.length < 10 then []
    else
      let n : ℕ := hist.length
      let m : ℚ := ((n : ℚ) * sumXY hist - sumIdx n * sumY hist) / slopeDenom n
      let b : ℚ := (sumY hist - m * sumIdx n) / (n : ℚ)
      let lastDate : Date := lastHistDate hist
      (List.range daysToForecast).map (fun j =>
        { date := jsSetDate lastDate (lastDate.day + (j + 1))
          cases := max 0 (jsRound (m * ((n : ℚ) + (j + 1 : ℕ) - 1) + b))
          isForecast := true })

/-- The specification of one aligned field value, in the spec's words:
the field takes the value stored at the date in the corresponding
series, or 0 if that series is absent or lacks the date. -/
def fieldSpec (s : Option MetricSeries) (d : Date) (x : ℕ) : Prop :=
  match s with
  | none => x = 0
  | some l => (∀ y, (d, y) ∈ l → x = y) ∧ ((∀ y, (d, y) ∉ l) → x = 0)

/-- A perfectly linear ten-point history, cases 100 + 10*i on
2021-01-01 … 2021-01-10. -/
def histLinear : List HistRecord :=
  [{ date := ⟨2021, 1, 1⟩, cases := 100 }, { date := ⟨2021, 1, 2⟩, cases := 110 },
   { date := ⟨2021, 1, 3⟩, cases := 120 }, { date := ⟨2021, 1, 4⟩, cases := 130 },
   { date := ⟨2021, 1, 5⟩, cases := 140 }, { date := ⟨2021, 1, 6⟩, cases := 150 },
   { date := ⟨2021, 1, 7⟩, cases := 160 }, { date := ⟨2021, 1, 8⟩, cases := 170 },
   { date := ⟨2021, 1, 9⟩, cases := 180 }, { date := ⟨2021, 1, 10⟩, cases := 190 }]

/-- A ten-point history ending on 2021-01-30, to exercise month
rollover in forecast dates. -/
def histJan30 : List HistRecord :=
  [{ date := ⟨2021, 1, 21⟩, cases := 5 }, { date := ⟨2021, 1, 22⟩, cases := 5 },
   { date := ⟨2021, 1, 23⟩, cases := 5 }, { date := ⟨2021, 1, 24⟩, cases := 5 },
   { date := ⟨2021, 1, 25⟩, cases := 5 }, { date := ⟨2021, 1, 26⟩, cases := 5 },
   { date := ⟨2021, 1, 27⟩, cases := 5 }, { date := ⟨2021, 1, 28⟩, cases := 5 },
   { date := ⟨2021, 1, 29⟩, cases := 5 }, { date := ⟨2021, 1, 30⟩, cases := 5 }]

/-- A one-key cases series, for exercising zero-fill. -/
def seriesCasesOnly : MetricSeries := [(⟨2021, 1, 1⟩, 5)]

/-- A one-key vaccine series on a different date, for exercising
zero-fill. -/
def seriesVacOnly : MetricSeries := [(⟨2021, 1, 2⟩, 7)]

theorem mem_jsSetAux {a : Date} :
    ∀ (seen l : List Date), a ∈ jsSetAux seen l ↔ a ∈ l ∧ a ∉ seen := by
  intro seen l
  induction l generalizing seen with
  | nil => simp [jsSetAux]
  | cons d rest ih =>
    by_cases hd : d ∈ seen
    · rw [jsSetAux, if_pos hd, ih]
      constructor
      · rintro ⟨h1, h2⟩; exact ⟨List.mem_cons_of_mem _ h1, h2⟩
      · rintro ⟨h1, h2⟩
        rcases List.mem_cons.1 h1 with rfl | h1
        · exact absurd hd h2
        · exact ⟨h1, h2⟩
    · rw [jsSetAux, if_neg hd]
      simp only [List.mem_cons, ih]
      by_cases had : a = d
      · subst had; tauto
      · tauto

theorem nodup_jsSetAux : ∀ (seen l : List Date), (jsSetAux seen l).Nodup := by
  intro seen l
  induction l generalizing seen with
  | nil => simp [jsSetAux]
  | cons d rest ih =>
    by_cases hd : d ∈ seen
    · rw [jsSetAux, if_pos hd]; exact ih seen
    · rw [jsSetAux, if_neg hd]
      refine List.nodup_cons.2 ⟨fun hmem => ?_, ih (d :: seen)⟩
      exact ((mem_jsSetAux _ _).1 hmem).2 (List.mem_cons_self d seen)

theorem pairwise_jsSetAux (seen : List Date) (l : List Date)
    (hl : l.Pairwise dateLe) : (jsSetAux seen l).Pairwise dateLt := by
  induction l generalizing seen with
  | nil => simp [jsSetAux]
  | cons d rest ih =>
    have hhead : ∀ x ∈ rest, dateLe d x := (List.pairwise_cons.1 hl).1
    have htail : rest.Pairwise dateLe := (List.pairwise_cons.1 hl).2
    by_cases hd : d ∈ seen
    · rw [jsSetAux, if_pos hd]; exact ih seen htail
    · rw [jsSetAux, if_neg hd]
      refine List.pairwise_cons.2 ⟨fun x hx => ?_, ih (d :: seen) htail⟩
      obtain ⟨hx1, hx2⟩ := (mem_jsSetAux _ _).1 hx
      have hne : d ≠ x := by
        intro h; subst h; exact hx2 (List.mem_cons_self d seen)
      exact dateLt_of_dateLe_of_ne (hhead x hx1) hne

theorem mem_jsSetList {a : Date} {l : List Date} :
    a ∈ jsSetList l ↔ a ∈ l := by
  rw [jsSetList, mem_jsSetAux]
  simp

theorem nodup_jsSetList (l : List Date) : (jsSetList l).Nodup :=
  nodup_jsSetAux [] l

theorem pairwise_jsSetList {l : List Date} (hl : l.Pairwise dateLe) :
    (jsSetList l).Pairwise dateLt :=
  pairwise_jsSetAux [] l hl

theorem next_day_eq (d : Date) (h : d.day + 1 ≤ daysInMonth d.year d.month) :
    d.next = ⟨d.year, d.month, d.day + 1⟩ := by
  rw [Date.next, if_pos h]

theorem next_month_eq (d : Date) (h1 : ¬d.day + 1 ≤ daysInMonth d.year d.month)
    (h2 : d.month + 1 ≤ 12) : d.next = ⟨d.year, d.month + 1, 1⟩ := by
  rw [Date.next, if_neg h1, if_pos h2]

theorem next_year_eq (d : Date) (h1 : ¬d.day + 1 ≤ daysInMonth d.year d.month)
    (h2 : ¬d.month + 1 ≤ 12) : d.next = ⟨d.year + 1, 1, 1⟩ := by
  rw [Date.next, if_neg h1, if_neg h2]

theorem dateLt_next (d : Date) : dateLt d d.next := by
  by_cases h1 : d.day + 1 ≤ daysInMonth d.year d.month
  · rw [next_day_eq d h1]
    exact Or.inr ⟨rfl, Or.inr ⟨rfl, Nat.lt_succ_self _⟩⟩
  · by_cases h2 : d.month + 1 ≤ 12
    · rw [next_month_eq d h1 h2]
      exact Or.inr ⟨rfl, Or.inl (Nat.lt_succ_self _)⟩
    · rw [next_year_eq d h1 h2]
      exact Or.inl (Nat.lt_succ_self _)

theorem addDays_succ (d : Date) (k : ℕ) : addDays d (k + 1) = (addDays d k).next :=
  rfl

theorem dateLt_addDays (d : Date) (k j : ℕ) (hj : 0 < j) :
    dateLt (addDays d k) (addDays d (k + j)) := by
  induction j with
  | zero => omega
  | succ j ih =>
    rcases Nat.eq_zero_or_pos j with rfl | hj'
    · exact dateLt_next (addDays d k)
    · exact Trans.trans (ih hj') (dateLt_next (addDays d (k + j)))

theorem addDays_add (d : Date) (a b : ℕ) :
    addDays d (a + b) = addDays (addDays d a) b := by
  induction b with
  | zero => rfl
  | succ b ih => rw [← Nat.add_assoc, addDays_succ, ih, addDays_succ]

theorem addDays_monthStart (y m : ℕ) :
    ∀ j : ℕ, j + 1 ≤ daysInMonth y m → addDays ⟨y, m, 1⟩ j = ⟨y, m, j + 1⟩ := by
  intro j
  induction j with
  | zero => intro _; rfl
  | succ j ih =>
    intro hj
    rw [addDays_succ, ih (by omega), next_day_eq ⟨y, m, j + 1⟩ (by simpa using hj)]

theorem jsSetDate_addDays (d : Date) (i : ℕ)
    (hday : 1 ≤ d.day) (hmon : d.day ≤ daysInMonth d.year d.month) :
    jsSetDate d (d.day + i) = addDays d i := by
  obtain ⟨y, m, dd⟩ := d
  simp only at hday hmon
  rw [jsSetDate]
  simp only
  have h1 : dd + i - 1 = (dd - 1) + i := by omega
  rw [h1, addDays_add, addDays_monthStart y m (dd - 1) (by omega)]
  have h2 : dd - 1 + 1 = dd := by omega
  rw [h2]

theorem seriesGet_of_mem {l : MetricSeries} {d : Date} {y : ℕ}
    (hnd : (l.map Prod.fst).Nodup) (hmem : (d, y) ∈ l) :
    seriesGet l d = some y := by
  induction l with
  | nil => cases hmem
  | cons p rest ih =>
    obtain ⟨k, v⟩ := p
    rw [List.map_cons, List.nodup_cons] at hnd
    rw [seriesGet]
    rcases List.mem_cons.1 hmem with heq | hmem'
    · obtain ⟨rfl, rfl⟩ := Prod.mk.injEq .. ▸ heq
      · rw [if_pos rfl]
    · by_cases hd : d = k
      · subst hd
        exact absurd (List.mem_map.2 ⟨(d, y), hmem', rfl⟩) hnd.1
      · rw [if_neg hd]
        exact ih hnd.2 hmem'

theorem seriesGet_of_not_mem {l : MetricSeries} {d : Date}
    (habs : ∀ y, (d, y) ∉ l) : seriesGet l d = none := by
  induction l with
  | nil => rfl
  | cons p rest ih =>
    obtain ⟨k, v⟩ := p
    rw [seriesGet]
    by_cases hd : d = k
    · subst hd; exact absurd (List.mem_cons_self _ _) (habs v)
    · rw [if_neg hd]
      exact ih fun y hy => habs y (List.mem_cons_of_mem _ hy)

theorem fieldSpec_lookupOr0 (s : Option MetricSeries) (d : Date)
    (hnd : (optKeys s).Nodup) : fieldSpec s d (lookupOr0 s d) := by
  match s with
  | none => rfl
  | some l =>
    refine ⟨fun y hy => ?_, fun habs => ?_⟩
    · rw [lookupOr0, seriesGet_of_mem hnd hy, Option.getD_some]
    · rw [lookupOr0, seriesGet_of_not_mem habs, Option.getD_none]

theorem processHistoricalData_map_date (c r v : Option MetricSeries) :
    (processHistoricalData c r v).map (fun rec => rec.date) =
      jsSetList (List.insertionSort dateLe (allKeys c r v)) := by
  rw [processHistoricalData]
  simp only [List.map_map]
  exact List.map_id'' (fun x => rfl) _

theorem dateLt_addDays_of_lt (b : Date) {k k' : ℕ} (h : k < k') :
    dateLt (addDays b k) (addDays b k') := by
  have hk : k' = k + (k' - k) := by omega
  rw [hk]
  exact dateLt_addDays b k (k' - k) (by omega)

/-- C1: for any three inputs to align, the date set of the returned
sequence equals the union of the keys of the present inputs, contains
no duplicate dates, the output length equals the number of distinct
dates across all inputs, and aligning three absent inputs yields the
empty sequence. -/
theorem align_union_complete (c r v : Option MetricSeries) :
    (∀ d : Date,
        d ∈ (processHistoricalData c r v).map (fun rec => rec.date) ↔
          d ∈ allKeys c r v)
      ∧ ((processHistoricalData c r v).map (fun rec => rec.date)).Nodup
      ∧ (processHistoricalData c r v).length = (allKeys c r v).toFinset.card
      ∧ processHistoricalData none none none = [] := by
  have hmapdate := processHistoricalData_map_date c r v
  have hmem : ∀ d : Date,
      d ∈ jsSetList (List.insertionSort dateLe (allKeys c r v)) ↔
        d ∈ allKeys c r v := by
    intro d
    rw [mem_jsSetList]
    exact (List.perm_insertionSort dateLe (allKeys c r v)).mem_iff
  refine ⟨fun d => by rw [hmapdate]; exact hmem d, ?_, ?_, rfl⟩
  · rw [hmapdate]; exact nodup_jsSetList _
  · have h1 : (processHistoricalData c r v).length =
        (jsSetList (List.insertionSort dateLe (allKeys c r v))).length := by
      rw [← hmapdate, List.length_map]
    rw [h1, ← List.toFinset_card_of_nodup (nodup_jsSetList _)]
    congr 1
    apply Finset.ext
    intro d
    simp only [List.mem_toFinset]
    exact hmem d

/-- C2: the aligned sequence and the forecast sequence are each sorted
strictly ascending by calendar date (the lexicographic year/month/day
order, i.e. calendar-date ordering, which is how align sorts the union
of keys). -/
theorem align_forecast_sorted_by_date :
    (∀ c r v, (processHistoricalData c r v).Pairwise
        (fun p q => dateLt p.date q.date))
      ∧ ∀ hist h, (forecastData hist h).Pairwise
        (fun p q => dateLt p.date q.date) := by
  constructor
  · intro c r v
    rw [processHistoricalData, List.pairwise_map]
    exact pairwise_jsSetList (List.sorted_insertionSort dateLe _)
  · intro hist h
    match hist with
    | none => exact List.Pairwise.nil
    | some l =>
      by_cases hlen : l.length < 10
      · simp [forecastData, hlen]
      · rw [forecastData]
        simp only [if_neg hlen, List.pairwise_map]
        refine (List.pairwise_lt_range h).imp ?_
        intro i j hij
        show dateLt (jsSetDate (lastHistDate l) ((lastHistDate l).day + (i + 1)))
          (jsSetDate (lastHistDate l) ((lastHistDate l).day + (j + 1)))
        rw [jsSetDate, jsSetDate]
        exact dateLt_addDays_of_lt _ (by omega)

/-- C3: every record of the aligned sequence takes each of its three
metric fields from the corresponding input series at the record's date,
or 0 when that series is absent or lacks the date (so a date present in
exactly one series gets 0 in the other two fields). -/
theorem align_zero_fill (c r v : Option MetricSeries)
    (hc : (optKeys c).Nodup) (hr : (optKeys r).Nodup)
    (hv : (optKeys v).Nodup) :
    ∀ rec ∈ processHistoricalData c r v,
      fieldSpec c rec.date rec.cases ∧ fieldSpec r rec.date rec.recovered
        ∧ fieldSpec v rec.date rec.vaccines := by
  intro rec hrec
  rw [processHistoricalData] at hrec
  obtain ⟨d, _, rfl⟩ := List.mem_map.1 hrec
  exact ⟨fieldSpec_lookupOr0 c d hc, fieldSpec_lookupOr0 r d hr,
    fieldSpec_lookupOr0 v d hv⟩

/-- Witness for C3: with cases only on 2021-01-01 and vaccines only on
2021-01-02, the record at 2021-01-01 carries cases 5 and zero in the
other two fields. -/
theorem align_zero_fill_witness :
    fieldSpec (some seriesCasesOnly) ⟨2021, 1, 1⟩ 5
      ∧ fieldSpec none ⟨2021, 1, 1⟩ 0
      ∧ fieldSpec (some seriesVacOnly) ⟨2021, 1, 1⟩ 0 :=
  align_zero_fill (some seriesCasesOnly) none (some seriesVacOnly)
    (by decide) (by decide) (by decide)
    ⟨⟨2021, 1, 1⟩, 5, 0, 0⟩ (by decide)

/-- C4: a history of fewer than 10 points yields an empty forecast, for
any horizon, with no failure. -/
theorem forecast_short_history_empty (hist : List HistRecord) (h : ℕ)
    (hlen : hist.length < 10) : forecastData (some hist) h = [] := by
  simp [forecastData, hlen]

/-- Witness for C4 at the empty history and horizon 5. -/
theorem forecast_short_history_empty_witness :
    ([] : List HistRecord).length < 10 ∧ forecastData (some []) 5 = [] :=
  ⟨by decide, forecast_short_history_empty [] 5 (by decide)⟩

/-- C5: a history of at least 10 points yields exactly `h` forecast
records, each carrying `isForecast = true`. -/
theorem forecast_length_isForecast (hist : List HistRecord) (h : ℕ)
    (hlen : 10 ≤ hist.length) :
    (forecastData (some hist) h).length = h
      ∧ ∀ rec ∈ forecastData (some hist) h, rec.isForecast = true := by
  have hnot : ¬hist.length < 10 := by omega
  constructor
  · rw [forecastData]
    simp [hnot]
  · intro rec hrec
    rw [forecastData] at hrec
    simp only [if_neg hnot] at hrec
    obtain ⟨j, _, rfl⟩ := List.mem_map.1 hrec
    rfl

/-- Witness for C5 at a concrete ten-point history and horizon 2. -/
theorem forecast_length_isForecast_witness :
    10 ≤ histJan30.length
      ∧ ((forecastData (some histJan30) 2).length = 2
        ∧ ∀ rec ∈ forecastData (some histJan30) 2, rec.isForecast = true) :=
  ⟨by decide, forecast_length_isForecast histJan30 2 (by decide)⟩

/-- C10: an absent history yields an empty forecast for every horizon,
the same result as any history shorter than 10 points. -/
theorem forecast_absent_history (h : ℕ) :
    forecastData none h = []
      ∧ ∀ hist : List HistRecord, hist.length < 10 →
          forecastData none h = forecastData (some hist) h := by
  refine ⟨rfl, fun hist hlen => ?_⟩
  have hsh : forecastData (some hist) h = [] := by simp [forecastData, hlen]
  rw [hsh]
  rfl

/-- Witness for C10 at horizon 7 and the empty history. -/
theorem forecast_absent_history_witness :
    forecastData none 7 = [] ∧ forecastData none 7 = forecastData (some []) 7 :=
  ⟨(forecast_absent_history 7).1, (forecast_absent_history 7).2 [] (by decide)⟩

theorem forecastData_histLinear_eval :
    forecastData (some histLinear) 3 =
      [⟨⟨2021, 1, 11⟩, 200, true⟩, ⟨⟨2021, 1, 12⟩, 210, true⟩,
        ⟨⟨2021, 1, 13⟩, 220, true⟩] := by
  simp only [forecastData, histLinear]
  norm_num [sumY, sumXY, sumIdx, sumIdxSq, slopeDenom, jsRound, jsSetDate,
    lastHistDate, Finset.sum_range_succ, List.range_succ, List.enum,
    List.enumFrom, addDays, Date.next, daysInMonth]

/-- Counterexample to C6: on the perfectly linear ten-point history
with cases 100 + 10*i, forecast with horizon 3 does not return
130, 140, 150. -/
theorem forecast_linear_fit_not_claimed_values :
    (forecastData (some histLinear) 3).map (fun r => r.cases) ≠
      [130, 140, 150] := by
  rw [forecastData_histLinear_eval]
  decide

/-- C6 (amended): on the perfectly linear ten-point history with cases
100 + 10*i for i = 0..9, forecast with horizon 3 returns 200, 210, 220,
the least-squares fit m = 10, b = 100 evaluated at steps n + k - 1 =
10, 11, 12 for k = 1..3. -/
theorem forecast_linear_fit_exact :
    (forecastData (some histLinear) 3).map (fun r => r.cases) =
      [200, 210, 220] := by
  rw [forecastData_histLinear_eval]
  rfl

/-- C7: with at least 10 history points and a valid last date, the k-th
forecast record is dated k calendar days after the last history date,
with month and year rollover. -/
theorem forecast_date_continuity (hist : List HistRecord) (h : ℕ)
    (hlen : 10 ≤ hist.length)
    (hday : 1 ≤ (lastHistDate hist).day)
    (hmon : (lastHistDate hist).day ≤
      daysInMonth (lastHistDate hist).year (lastHistDate hist).month) :
    (forecastData (some hist) h).map (fun r => r.date) =
      (List.range h).map (fun j => addDays (lastHistDate hist) (j + 1)) := by
  have hnot : ¬hist.length < 10 := by omega
  rw [forecastData]
  simp only [if_neg hnot, List.map_map]
  refine List.map_congr_left ?_
  intro j _
  show jsSetDate (lastHistDate hist) ((lastHistDate hist).day + (j + 1)) =
    addDays (lastHistDate hist) (j + 1)
  exact jsSetDate_addDays _ _ hday hmon

/-- Witness for C7: last history date 2021-01-30 with horizon 3 gives
the dates 2021-01-31, 2021-02-01, 2021-02-02. -/
theorem forecast_date_continuity_rollover :
    (forecastData (some histJan30) 3).map (fun r => r.date) =
      [⟨2021, 1, 31⟩, ⟨2021, 2, 1⟩, ⟨2021, 2, 2⟩] := by
  rw [forecast_date_continuity histJan30 3 (by decide) (by decide) (by decide)]
  decide

/-- C8: every forecast cases value is nonnegative (it is the clamp of
the rounded regression value to a minimum of 0), and round-then-clamp
agrees with clamp-then-round on every rational input. -/
theorem forecast_nonneg_round_clamp :
    (∀ hist h, ∀ rec ∈ forecastData hist h, 0 ≤ rec.cases)
      ∧ ∀ q : ℚ, max 0 (jsRound q) = jsRound (max 0 q) := by
  constructor
  · intro hist h rec hrec
    match hist with
    | none => simp [forecastData] at hrec
    | some l =>
      by_cases hlen : l.length < 10
      · simp [forecastData, hlen] at hrec
      · rw [forecastData] at hrec
        simp only [if_neg hlen] at hrec
        obtain ⟨j, _, rfl⟩ := List.mem_map.1 hrec
        exact le_max_left 0 _
  · intro q
    rcases le_total 0 q with hq | hq
    · rw [max_eq_right hq]
      have h0 : (0 : ℤ) ≤ jsRound q := by
        rw [jsRound]
        exact Int.le_floor.2 (by push_cast; linarith)
      rw [max_eq_right h0]
    · have h1 : jsRound q ≤ 0 := by
        rw [jsRound]
        have hf : ⌊q + 1 / 2⌋ ≤ ⌊(1 : ℚ) / 2⌋ := Int.floor_le_floor (by linarith)
        have hhalf : ⌊(1 : ℚ) / 2⌋ = 0 := by norm_num
        omega
      rw [max_eq_left h1, max_eq_left hq, jsRound]
      norm_num

/-- Witness for C8: the first record of the concrete linear-history
forecast is a member of the output and its cases value is nonnegative. -/
theorem forecast_nonneg_round_clamp_witness :
    (⟨⟨2021, 1, 11⟩, 200, true⟩ : ForecastRecord) ∈
        forecastData (some histLinear) 3
      ∧ 0 ≤ (⟨⟨2021, 1, 11⟩, (200 : ℤ), true⟩ : ForecastRecord).cases :=
  ⟨by rw [forecastData_histLinear_eval]; decide,
    forecast_nonneg_round_clamp.1 (some histLinear) 3 _
      (by rw [forecastData_histLinear_eval]; decide)⟩

theorem sumIdx_closed (n : ℕ) : 2 * sumIdx n = (n : ℚ) * n - n := by
  induction n with
  | zero => simp [sumIdx]
  | succ n ih =>
    rw [sumIdx, Finset.sum_range_succ, ← sumIdx, mul_add, ih]
    push_cast
    ring

theorem sumIdxSq_closed (n : ℕ) :
    6 * sumIdxSq n = 2 * (n : ℚ) ^ 3 - 3 * (n : ℚ) ^ 2 + n := by
  induction n with
  | zero => simp [sumIdxSq]
  | succ n ih =>
    rw [sumIdxSq, Finset.sum_range_succ, ← sumIdxSq, mul_add, ih]
    push_cast
    ring

theorem slopeDenom_closed (n : ℕ) :
    12 * slopeDenom n = (n : ℚ) ^ 4 - (n : ℚ) ^ 2 := by
  have h1 : sumIdx n = ((n : ℚ) * n - n) / 2 := by
    have := sumIdx_closed n
    linarith
  have h2 : sumIdxSq n = (2 * (n : ℚ) ^ 3 - 3 * (n : ℚ) ^ 2 + n) / 6 := by
    have := sumIdxSq_closed n
    linarith
  rw [slopeDenom, h1, h2]
  ring

/-- C9: the slope division in `forecastData` is performed with no
explicit zero guard (see `slopeDenom`); this theorem records why that
is latent: the denominator n·Σx² − (Σx)² over the index sequence
0..n-1 is strictly positive for every n ≥ 2, so every history passing
the 10-point floor reaches the division with a nonzero denominator. -/
theorem slope_denominator_positive (n : ℕ) (hn : 2 ≤ n) :
    0 < slopeDenom n := by
  have h := slopeDenom_closed n
  have hnq : (2 : ℚ) ≤ (n : ℚ) := by exact_mod_cast hn
  have hsq : (4 : ℚ) ≤ (n : ℚ) ^ 2 := by nlinarith [hnq]
  nlinarith [h, hsq, sq_nonneg ((n : ℚ))]

/-- Witness for the C9 positivity statement at n = 10, the smallest
history length reaching the division. -/
theorem slope_denominator_positive_witness :
    2 ≤ 10 ∧ 0 < slopeDenom 10 :=
  ⟨by norm_num, slope_denominator_positive 10 (by norm_num)⟩

end CovidTracker
